import Mathlib

/-!
Verification of the pingpong match-lifecycle coordinator (`app.py`).

The program is shallowly embedded over `List Char` text, an
association-list store for the `matches` table and an append-only list
for the `results` table.  Each Slack handler becomes a pure function
from the store and the event's inputs to the new store and a symbolic
output describing the message(s) the handler would send.  The outcome
of the one fallible external call that influences control flow
(`chat_postMessage` for the result announcement, which the code guards
with a `try/except SlackApiError`) is passed in as a boolean
`deliverOk` parameter.
-/

namespace PingPong

/-! ### Character classes and Python-style parsing -/

/-- `[A-Z0-9]`, the character class of Slack user-id bodies used in both
mention regexes of `handle_pingpong`. -/
def isIdChar (c : Char) : Bool :=
  decide (('A' ≤ c ∧ c ≤ 'Z') ∨ ('0' ≤ c ∧ c ≤ '9'))

/-- ASCII whitespace removed by Python's `str.strip()`. -/
def isPySpace (c : Char) : Bool :=
  decide (c = ' ' ∨ c = '\t' ∨ c = '\n' ∨ c = '\r' ∨ c = '\x0b' ∨ c = '\x0c')

/-- `str.strip()`: drop leading and trailing whitespace. -/
def pyStrip (l : List Char) : List Char :=
  ((l.dropWhile isPySpace).reverse.dropWhile isPySpace).reverse

def digitVal (c : Char) : Nat := c.toNat - 48

/-- Tail of a Python integer literal after its first digit: digits, with
single underscores allowed only between digits (`digit (["_"] digit)*`). -/
def parseDigitsTail (acc : Nat) : List Char → Option Nat
  | [] => some acc
  | c :: rest =>
    if c = '_' then
      match rest with
      | d :: rest2 =>
        if d.isDigit then parseDigitsTail (acc * 10 + digitVal d) rest2 else none
      | [] => none
    else if c.isDigit then parseDigitsTail (acc * 10 + digitVal c) rest
    else none

/-- An unsigned Python integer literal: at least one digit. -/
def parseNatPart : List Char → Option Nat
  | [] => none
  | c :: rest => if c.isDigit then parseDigitsTail (digitVal c) rest else none

/-- Python's `int(s)` on the score strings: strip whitespace, optional
sign, decimal digits; `none` models the `ValueError` path. -/
def parsePyInt (l : List Char) : Option Int :=
  match pyStrip l with
  | [] => none
  | c :: rest =>
    if c = '+' then (parseNatPart rest).map (fun n => (n : Int))
    else if c = '-' then (parseNatPart rest).map (fun n => -(n : Int))
    else (parseNatPart (c :: rest)).map (fun n => (n : Int))

/-! ### Decimal rendering of the timestamp (Python `f"{int(time.time())}"`) -/

def digitChar (n : Nat) : Char :=
  if n = 0 then '0' else if n = 1 then '1' else if n = 2 then '2'
  else if n = 3 then '3' else if n = 4 then '4' else if n = 5 then '5'
  else if n = 6 then '6' else if n = 7 then '7' else if n = 8 then '8' else '9'

/-- Fuel-driven decimal rendering; `fuel = n + 1` always suffices. -/
def natDecFuel : Nat → Nat → List Char → List Char
  | 0, _, acc => acc
  | fuel + 1, n, acc =>
    if n < 10 then digitChar n :: acc
    else natDecFuel fuel (n / 10) (digitChar (n % 10) :: acc)

/-- Decimal string of a natural number, most significant digit first. -/
def natDec (n : Nat) : List Char := natDecFuel (n + 1) n []

/-- `f"match_{user_id}_{int(time.time())}"` — the match-id generator used
by both `handle_pingpong` and `handle_pick_opponent`. -/
def matchIdGen (user : List Char) (now : Nat) : List Char :=
  "match_".data ++ (user ++ '_' :: natDec now)

/-! ### Opponent resolution (the two regexes of `handle_pingpong`) -/

/-- The optional display-name part `\|[^>]+` followed by the closing
`>`: succeeds iff `r3` starts with at least one non-`>` character and a
`>` occurs later. -/
def canonName (uid r3 : List Char) : Option (List Char) :=
  if r3.takeWhile (fun x => decide (¬ x = '>')) = [] then none
  else if r3.dropWhile (fun x => decide (¬ x = '>')) = [] then none
  else some uid

/-- What may follow the id inside a canonical mention: `>` directly, or
`|` and a display name. -/
def canonTail (uid : List Char) : List Char → Option (List Char)
  | c3 :: r3 =>
    if c3 = '>' then some uid
    else if c3 = '|' then canonName uid r3
    else none
  | [] => none

/-- Attempt the canonical mention regex `<@([A-Z0-9]+)(?:\|[^>]+)?>`
anchored at the head of `l`; returns group 1 on success. -/
def canonAt (l : List Char) : Option (List Char) :=
  match l with
  | c1 :: c2 :: rest =>
    if c1 = '<' ∧ c2 = '@' then
      if rest.takeWhile isIdChar = [] then none
      else canonTail (rest.takeWhile isIdChar) (rest.dropWhile isIdChar)
    else none
  | _ => none

/-- `re.search` for the canonical mention: leftmost successful anchor. -/
def findCanon : List Char → Option (List Char)
  | [] => none
  | c :: rest =>
    match canonAt (c :: rest) with
    | some uid => some uid
    | none => findCanon rest

/-- Attempt the loose mention regex `@([UW][A-Z0-9]+)` anchored at the
head of `l`; returns group 1 on success. -/
def looseAt (l : List Char) : Option (List Char) :=
  match l with
  | c1 :: c2 :: rest =>
    if c1 = '@' ∧ (c2 = 'U' ∨ c2 = 'W') then
      let ds := rest.takeWhile isIdChar
      if ds = [] then none else some (c2 :: ds)
    else none
  | _ => none

/-- `re.search` for the loose mention: leftmost successful anchor. -/
def findLoose : List Char → Option (List Char)
  | [] => none
  | c :: rest =>
    match looseAt (c :: rest) with
    | some uid => some uid
    | none => findLoose rest

/-- The opponent resolver of `handle_pingpong`: the canonical mention
regex first, the loose one only when the canonical search failed. -/
def extractOpponent (l : List Char) : Option (List Char) :=
  match findCanon l with
  | some uid => some uid
  | none => findLoose l

/-- Python's `s.split(sep, 1)` unpacked into exactly two names, as in
`channel_id, challenger_id = body["view"]["private_metadata"].split("|", 1)`;
`none` models the `ValueError` raised when `sep` does not occur. -/
def splitFirst (sep : Char) (l : List Char) : Option (List Char × List Char) :=
  if (l.dropWhile (fun x => decide (¬ x = sep))) = [] then none
  else some (l.takeWhile (fun x => decide (¬ x = sep)),
             (l.dropWhile (fun x => decide (¬ x = sep))).tail)

/-! ### Data model: the `matches` and `results` tables -/

structure MatchRow where
  challenger : List Char
  opponent : List Char
  channel : List Char
  createdAt : Nat
deriving DecidableEq

structure ResultRow where
  matchId : List Char
  challenger : List Char
  opponent : List Char
  challengerScore : Int
  opponentScore : Int
  winner : Option (List Char)
  channel : List Char
  submittedBy : List Char
  submittedAt : Nat
deriving DecidableEq

/-- The two tables of `init_db`: `matches` keyed by primary-key id, and
the append-only `results` log. -/
structure Store where
  matchesTable : List (List Char × MatchRow)
  results : List ResultRow
deriving DecidableEq

def emptyStore : Store := ⟨[], []⟩

/-- `INSERT ... ON CONFLICT (id) DO UPDATE` of `create_match`: upsert
keyed by the primary key. -/
def create_match (matchId challenger opponent channel : List Char) (now : Nat)
    (s : Store) : Store :=
  ⟨(matchId, ⟨challenger, opponent, channel, now⟩) ::
      s.matchesTable.filter (fun p => decide (¬ p.1 = matchId)),
   s.results⟩

/-- `SELECT ... FROM matches WHERE id = :id` of `get_match`. -/
def get_match (matchId : List Char) (s : Store) : Option MatchRow :=
  (s.matchesTable.find? (fun p => decide (p.1 = matchId))).map (fun p => p.2)

/-- `DELETE FROM matches WHERE id = :id` of `delete_match`; a no-op when
the id is absent. -/
def delete_match (matchId : List Char) (s : Store) : Store :=
  ⟨s.matchesTable.filter (fun p => decide (¬ p.1 = matchId)), s.results⟩

/-- `INSERT INTO results ...` of `record_result`: append to the log. -/
def record_result (r : ResultRow) (s : Store) : Store :=
  ⟨s.matchesTable, s.results ++ [r]⟩

/-! ### Score evaluation (lines 512-517 of `handle_score_submission`) -/

def computeWinner (challenger opponent : List Char) (cs os : Int) :
    Option (List Char) :=
  if cs > os then some challenger
  else if os > cs then some opponent
  else none

/-! ### Handlers as pure transition functions -/

/-- Symbolic rendering of what `handle_pingpong` / `handle_pick_opponent`
send out. -/
inductive PingOut where
  | announce (matchId challenger opponent channel : List Char)
  | openPicker (metadata : List Char)
  | usage
deriving DecidableEq

/-- `/pingpong` slash-command handler.  `text`, `user`, `channel` come
from the command payload, `now` is `int(time.time())`. -/
def handle_pingpong (s : Store) (text user channel : List Char) (now : Nat) :
    Store × PingOut :=
  let t := pyStrip text
  if "challenge".data.isPrefixOf t then
    match extractOpponent t with
    | some opp =>
      let mid := matchIdGen user now
      (create_match mid user opp channel now s, PingOut.announce mid user opp channel)
    | none => (s, PingOut.openPicker (channel ++ '|' :: user))
  else (s, PingOut.usage)

/-- `pingpong_pick_opponent` view-submission handler.  The match is
created from the parsed `private_metadata` before any posting is
attempted; `none` models the crash on metadata without a `|`. -/
def handle_pick_opponent (s : Store) (metadata selected : List Char) (now : Nat) :
    Option (Store × PingOut) :=
  match splitFirst '|' metadata with
  | none => none
  | some (channel, challenger) =>
    let mid := matchIdGen challenger now
    some (create_match mid challenger selected channel now s,
          PingOut.announce mid challenger selected channel)

inductive AcceptOut where
  | notFound
  | scorePrompt (matchId challenger opponent : List Char)
deriving DecidableEq

/-- `accept_match` button handler: read-only in both branches. -/
def accept_match (s : Store) (matchId : List Char) : Store × AcceptOut :=
  match get_match matchId s with
  | none => (s, AcceptOut.notFound)
  | some m => (s, AcceptOut.scorePrompt matchId m.challenger m.opponent)

inductive DeclineOut where
  | declined
deriving DecidableEq

/-- `decline_match` button handler: unconditional delete; the acting
user is present in the payload but never consulted. -/
def decline_match (s : Store) (matchId : List Char) (_user : List Char) :
    Store × DeclineOut :=
  (delete_match matchId s, DeclineOut.declined)

/-- Symbolic rendering of what `handle_score_submission` sends out. -/
inductive ScoreOut where
  | fieldError
  | announced (channel : List Char) (row : ResultRow)
  | dmFallback (user : List Char)
  | contextLost (user : List Char)
deriving DecidableEq

/-- `submit_score` view-submission handler.  `deliverOk` is the outcome
of the guarded `chat_postMessage` that announces the result: when it
raises `SlackApiError` the code falls into the DM fallback and — as in
the source — never reaches `delete_match`. -/
def handle_score_submission (s : Store) (matchId rawC rawO user : List Char)
    (now : Nat) (deliverOk : Bool) : Store × ScoreOut :=
  match parsePyInt rawC, parsePyInt rawO with
  | some cs, some os =>
    match get_match matchId s with
    | some m =>
      let w := computeWinner m.challenger m.opponent cs os
      let r : ResultRow := ⟨matchId, m.challenger, m.opponent, cs, os, w,
                            m.channel, user, now⟩
      let s1 := record_result r s
      if deliverOk then (delete_match matchId s1, ScoreOut.announced m.channel r)
      else (s1, ScoreOut.dmFallback user)
    | none => (s, ScoreOut.contextLost user)
  | _, _ => (s, ScoreOut.fieldError)

/-! ### Concrete fixtures used by the closed evaluations -/

def mid0 : List Char := "match_U1_100".data

def m0row : MatchRow := ⟨"U1".data, "U2".data, "CC".data, 100⟩

/-- A store holding one pending match, `U1` vs `U2` in channel `CC`. -/
def s0 : Store := ⟨[(mid0, m0row)], []⟩

/-- The match id announced by a challenge handler run, if any. -/
def announcedId : PingOut → Option (List Char)
  | PingOut.announce mid _ _ _ => some mid
  | _ => none

/-! ### Generic list helpers -/

theorem takeWhile_append_cons {α : Type} (p : α → Bool) (l : List α) (c : α)
    (t : List α) (hl : ∀ x ∈ l, p x = true) (hc : p c = false) :
    (l ++ c :: t).takeWhile p = l := by
  induction l with
  | nil => simp [List.takeWhile_cons, hc]
  | cons a l ih =>
    have ha : p a = true := hl a (List.mem_cons_self a l)
    simp only [List.cons_append, List.takeWhile_cons, ha, if_true]
    rw [ih (fun x hx => hl x (List.mem_cons_of_mem a hx))]

theorem dropWhile_append_cons {α : Type} (p : α → Bool) (l : List α) (c : α)
    (t : List α) (hl : ∀ x ∈ l, p x = true) (hc : p c = false) :
    (l ++ c :: t).dropWhile p = c :: t := by
  induction l with
  | nil => simp [List.dropWhile_cons, hc]
  | cons a l ih =>
    have ha : p a = true := hl a (List.mem_cons_self a l)
    simp only [List.cons_append, List.dropWhile_cons, ha, if_true]
    exact ih (fun x hx => hl x (List.mem_cons_of_mem a hx))

theorem takeWhile_all {α : Type} (p : α → Bool) (l : List α)
    (hl : ∀ x ∈ l, p x = true) : l.takeWhile p = l := by
  induction l with
  | nil => rfl
  | cons a l ih =>
    have ha : p a = true := hl a (List.mem_cons_self a l)
    simp only [List.takeWhile_cons, ha, if_true]
    rw [ih (fun x hx => hl x (List.mem_cons_of_mem a hx))]

theorem find?_filter_not (l : List (List Char × MatchRow)) (k : List Char) :
    (l.filter (fun p => decide (¬ p.1 = k))).find?
      (fun p => decide (p.1 = k)) = none := by
  induction l with
  | nil => rfl
  | cons a l ih =>
    by_cases h : a.1 = k
    · simp [List.filter_cons, h, ih]
    · simp [List.filter_cons, h, List.find?_cons, ih]

/-- Splitting at the last separator is unambiguous when neither tail
contains the separator. -/
theorem sep_append_inj (u d u' d' : List Char)
    (hd : ∀ c ∈ d, ¬ c = '_') (hd' : ∀ c ∈ d', ¬ c = '_')
    (h : u ++ '_' :: d = u' ++ '_' :: d') : u = u' ∧ d = d' := by
  have hr := congrArg List.reverse h
  simp only [List.reverse_append, List.reverse_cons, List.append_assoc,
    List.singleton_append] at hr
  have hp : ∀ c ∈ d.reverse, (fun x => decide (¬ x = '_')) c = true :=
    fun c hc => decide_eq_true (hd c (List.mem_reverse.mp hc))
  have hp' : ∀ c ∈ d'.reverse, (fun x => decide (¬ x = '_')) c = true :=
    fun c hc => decide_eq_true (hd' c (List.mem_reverse.mp hc))
  have hsep : (fun x => decide (¬ x = '_')) '_' = false := by decide
  have ht := congrArg (List.takeWhile (fun x => decide (¬ x = '_'))) hr
  rw [takeWhile_append_cons _ _ _ _ hp hsep,
      takeWhile_append_cons _ _ _ _ hp' hsep] at ht
  have hw := congrArg (List.dropWhile (fun x => decide (¬ x = '_'))) hr
  rw [dropWhile_append_cons _ _ _ _ hp hsep,
      dropWhile_append_cons _ _ _ _ hp' hsep] at hw
  refine ⟨?_, List.reverse_injective ht⟩
  have hu : u.reverse = u'.reverse := by
    injection hw
  exact List.reverse_injective hu

/-! ### Decimal rendering: injectivity -/

theorem digitChar_isDigit (m : Nat) : (digitChar m).isDigit = true := by
  unfold digitChar
  split_ifs <;> decide

theorem toNat_digitChar (m : Nat) (h : m < 10) :
    (digitChar m).toNat = 48 + m := by
  interval_cases m <;> decide

theorem natDecFuel_digits : ∀ (fuel n : Nat) (acc : List Char),
    (∀ c ∈ acc, c.isDigit = true) →
    ∀ c ∈ natDecFuel fuel n acc, c.isDigit = true := by
  intro fuel
  induction fuel with
  | zero => intro n acc hacc c hc; exact hacc c hc
  | succ fuel ih =>
    intro n acc hacc c hc
    by_cases h10 : n < 10
    · simp only [natDecFuel, if_pos h10] at hc
      rcases List.mem_cons.mp hc with h | h
      · rw [h]; exact digitChar_isDigit n
      · exact hacc c h
    · simp only [natDecFuel, if_neg h10] at hc
      refine ih (n / 10) (digitChar (n % 10) :: acc) ?_ c hc
      intro x hx
      rcases List.mem_cons.mp hx with h | h
      · rw [h]; exact digitChar_isDigit (n % 10)
      · exact hacc x h

theorem natDec_digits (n : Nat) : ∀ c ∈ natDec n, c.isDigit = true :=
  natDecFuel_digits (n + 1) n [] (by intro c hc; cases hc)

theorem natDec_no_underscore (n : Nat) : ∀ c ∈ natDec n, ¬ c = '_' := by
  intro c hc heq
  have hd := natDec_digits n c hc
  rw [heq] at hd
  exact absurd hd (by decide)

theorem natDecFuel_congr : ∀ (f1 f2 n : Nat) (acc : List Char),
    n < f1 → n < f2 → natDecFuel f1 n acc = natDecFuel f2 n acc := by
  intro f1
  induction f1 with
  | zero => intro f2 n acc h1 _; omega
  | succ f1 ih =>
    intro f2 n acc h1 h2
    cases f2 with
    | zero => omega
    | succ f2 =>
      by_cases h10 : n < 10
      · simp [natDecFuel, h10]
      · simp only [natDecFuel, if_neg h10]
        have hlt : n / 10 < n := Nat.div_lt_self (by omega) (by omega)
        exact ih f2 (n / 10) (digitChar (n % 10) :: acc) (by omega) (by omega)

theorem natDecFuel_append : ∀ (fuel n : Nat) (acc : List Char), n < fuel →
    natDecFuel fuel n acc = natDecFuel fuel n [] ++ acc := by
  intro fuel
  induction fuel with
  | zero => intro n acc h; omega
  | succ fuel ih =>
    intro n acc h
    by_cases h10 : n < 10
    · simp [natDecFuel, h10]
    · simp only [natDecFuel, if_neg h10]
      have hlt : n / 10 < fuel := by
        have := Nat.div_lt_self (show 0 < n by omega) (show 1 < 10 by omega)
        omega
      rw [ih (n / 10) (digitChar (n % 10) :: acc) hlt,
          ih (n / 10) [digitChar (n % 10)] hlt, List.append_assoc]
      rfl

def decValStep (a : Nat) (c : Char) : Nat := a * 10 + (c.toNat - 48)

/-- Left inverse of `natDec`: read a digit string back as a number. -/
def decVal (l : List Char) : Nat := l.foldl decValStep 0

theorem decVal_natDec (n : Nat) : decVal (natDec n) = n := by
  induction n using Nat.strong_induction_on with
  | _ n ih =>
    by_cases h10 : n < 10
    · show decVal (natDecFuel (n + 1) n []) = n
      simp only [natDecFuel, if_pos h10]
      show decValStep 0 (digitChar n) = n
      unfold decValStep
      rw [toNat_digitChar n h10]
      omega
    · show decVal (natDecFuel (n + 1) n []) = n
      have h0 : 0 < n := by omega
      have hdiv : n / 10 < n := Nat.div_lt_self h0 (by omega)
      simp only [natDecFuel, if_neg h10]
      rw [natDecFuel_congr n (n / 10 + 1) (n / 10) _ (by omega) (by omega),
          natDecFuel_append (n / 10 + 1) (n / 10) _ (by omega)]
      show decVal (natDec (n / 10) ++ [digitChar (n % 10)]) = n
      unfold decVal
      rw [List.foldl_append]
      have ihv : List.foldl decValStep 0 (natDec (n / 10)) = n / 10 := ih (n / 10) hdiv
      rw [ihv]
      show decValStep (n / 10) (digitChar (n % 10)) = n
      unfold decValStep
      rw [toNat_digitChar (n % 10) (Nat.mod_lt n (by omega))]
      omega

theorem natDec_inj (m n : Nat) (h : natDec m = natDec n) : m = n := by
  rw [← decVal_natDec m, ← decVal_natDec n, h]

/-! ### Mention-extraction lemmas -/

theorem canonAt_head (c : Char) (l : List Char) (h : ¬ c = '<') :
    canonAt (c :: l) = none := by
  cases l with
  | nil => rfl
  | cons c2 r => simp [canonAt, h]

theorem findCanon_skip : ∀ (pre s : List Char), (∀ c ∈ pre, ¬ c = '<') →
    findCanon (pre ++ s) = findCanon s := by
  intro pre
  induction pre with
  | nil => intro s _; rfl
  | cons c p ih =>
    intro s h
    show findCanon (c :: (p ++ s)) = findCanon s
    simp only [findCanon, canonAt_head c (p ++ s) (h c (List.mem_cons_self c p))]
    exact ih s (fun x hx => h x (List.mem_cons_of_mem c hx))

theorem canonAt_suffix_token (uid nm post : List Char) (h1 : uid ≠ [])
    (h2 : ∀ c ∈ uid, isIdChar c = true) (h3 : nm ≠ [])
    (h4 : ∀ c ∈ nm, ¬ c = '>') :
    canonAt ('<' :: '@' :: (uid ++ '|' :: (nm ++ '>' :: post))) = some uid := by
  have htw : (uid ++ '|' :: (nm ++ '>' :: post)).takeWhile isIdChar = uid :=
    takeWhile_append_cons isIdChar uid '|' _ h2 (by decide)
  have hdw : (uid ++ '|' :: (nm ++ '>' :: post)).dropWhile isIdChar
      = '|' :: (nm ++ '>' :: post) :=
    dropWhile_append_cons isIdChar uid '|' _ h2 (by decide)
  have htw2 : (nm ++ '>' :: post).takeWhile (fun x => decide (¬ x = '>')) = nm :=
    takeWhile_append_cons _ nm '>' post
      (fun c hc => decide_eq_true (h4 c hc)) (by decide)
  have hdw2 : (nm ++ '>' :: post).dropWhile (fun x => decide (¬ x = '>'))
      = '>' :: post :=
    dropWhile_append_cons _ nm '>' post
      (fun c hc => decide_eq_true (h4 c hc)) (by decide)
  show (if ('<' : Char) = '<' ∧ ('@' : Char) = '@' then
      if (uid ++ '|' :: (nm ++ '>' :: post)).takeWhile isIdChar = [] then none
      else canonTail ((uid ++ '|' :: (nm ++ '>' :: post)).takeWhile isIdChar)
        ((uid ++ '|' :: (nm ++ '>' :: post)).dropWhile isIdChar)
    else none) = some uid
  rw [if_pos ⟨rfl, rfl⟩, htw, hdw, if_neg h1]
  show (if ('|' : Char) = '>' then some uid
    else if ('|' : Char) = '|' then canonName uid (nm ++ '>' :: post)
    else none) = some uid
  rw [if_neg (by decide), if_pos rfl]
  unfold canonName
  rw [htw2, hdw2, if_neg h3, if_neg (List.cons_ne_nil '>' post)]

theorem canonAt_plain_token (uid post : List Char) (h1 : uid ≠ [])
    (h2 : ∀ c ∈ uid, isIdChar c = true) :
    canonAt ('<' :: '@' :: (uid ++ '>' :: post)) = some uid := by
  have htw : (uid ++ '>' :: post).takeWhile isIdChar = uid :=
    takeWhile_append_cons isIdChar uid '>' _ h2 (by decide)
  have hdw : (uid ++ '>' :: post).dropWhile isIdChar = '>' :: post :=
    dropWhile_append_cons isIdChar uid '>' _ h2 (by decide)
  show (if ('<' : Char) = '<' ∧ ('@' : Char) = '@' then
      if (uid ++ '>' :: post).takeWhile isIdChar = [] then none
      else canonTail ((uid ++ '>' :: post).takeWhile isIdChar)
        ((uid ++ '>' :: post).dropWhile isIdChar)
    else none) = some uid
  rw [if_pos ⟨rfl, rfl⟩, htw, hdw, if_neg h1]
  show (if ('>' : Char) = '>' then some uid
    else if ('>' : Char) = '|' then canonName uid post
    else none) = some uid
  rw [if_pos rfl]

theorem looseAt_head (c : Char) (l : List Char) (h : ¬ c = '@') :
    looseAt (c :: l) = none := by
  cases l with
  | nil => rfl
  | cons c2 r => simp [looseAt, h]

theorem findLoose_skip : ∀ (pre s : List Char), (∀ c ∈ pre, ¬ c = '@') →
    findLoose (pre ++ s) = findLoose s := by
  intro pre
  induction pre with
  | nil => intro s _; rfl
  | cons c p ih =>
    intro s h
    show findLoose (c :: (p ++ s)) = findLoose s
    simp only [findLoose, looseAt_head c (p ++ s) (h c (List.mem_cons_self c p))]
    exact ih s (fun x hx => h x (List.mem_cons_of_mem c hx))

theorem looseAt_token (u : Char) (ds post : List Char)
    (hu : u = 'U' ∨ u = 'W') (h1 : ds ≠ [])
    (h2 : ∀ c ∈ ds, isIdChar c = true)
    (h3 : post = [] ∨ ∃ c r, post = c :: r ∧ isIdChar c = false) :
    looseAt ('@' :: u :: (ds ++ post)) = some (u :: ds) := by
  have htw : (ds ++ post).takeWhile isIdChar = ds := by
    rcases h3 with h | ⟨c, r, hpost, hc⟩
    · rw [h, List.append_nil]
      exact takeWhile_all isIdChar ds h2
    · rw [hpost]
      exact takeWhile_append_cons isIdChar ds c r h2 hc
  simp [looseAt, hu, htw, h1]

theorem splitFirst_append (channel user : List Char)
    (h : ∀ c ∈ channel, ¬ c = '|') :
    splitFirst '|' (channel ++ '|' :: user) = some (channel, user) := by
  have hp : ∀ c ∈ channel, (fun x => decide (¬ x = '|')) c = true :=
    fun c hc => decide_eq_true (h c hc)
  have hsep : (fun x => decide (¬ x = '|')) '|' = false := by decide
  have htw := takeWhile_append_cons _ channel '|' user hp hsep
  have hdw := dropWhile_append_cons _ channel '|' user hp hsep
  unfold splitFirst
  rw [hdw, htw]
  simp

/-! ### Claim theorems -/

/-- C3: for all integer score pairs evaluated on an existing match
between two (distinct) participants, the computed winner is the
challenger iff the challenger's score is strictly greater, the opponent
iff the opponent's score is strictly greater, and none (tie) iff the
scores are equal; the comparison is total over `Int`, so negative or
arbitrarily large integers are accepted without any bounds check. -/
theorem C3_score_evaluator : ∀ (c o : List Char) (a b : Int), ¬ c = o →
    ((computeWinner c o a b = some c ↔ a > b) ∧
     (computeWinner c o a b = some o ↔ b > a) ∧
     (computeWinner c o a b = none ↔ a = b)) := by
  intro c o a b hne
  unfold computeWinner
  rcases lt_trichotomy a b with h | h | h
  · rw [if_neg (by omega : ¬ a > b), if_pos (by omega : b > a)]
    refine ⟨⟨fun he => absurd (Option.some.inj he).symm hne,
             fun hab => absurd hab (by omega)⟩,
            ⟨fun _ => by omega, fun _ => rfl⟩,
            ⟨fun he => Option.noConfusion he, fun he => absurd he (by omega)⟩⟩
  · rw [if_neg (by omega : ¬ a > b), if_neg (by omega : ¬ b > a)]
    refine ⟨⟨fun he => Option.noConfusion he, fun hab => absurd hab (by omega)⟩,
            ⟨fun he => Option.noConfusion he, fun hab => absurd hab (by omega)⟩,
            ⟨fun _ => h, fun _ => rfl⟩⟩
  · rw [if_pos (by omega : a > b)]
    refine ⟨⟨fun _ => by omega, fun _ => rfl⟩,
            ⟨fun he => absurd (Option.some.inj he) hne,
             fun hab => absurd hab (by omega)⟩,
            ⟨fun he => Option.noConfusion he, fun he => absurd he (by omega)⟩⟩

/-- Witness for C3 at a negative and an astronomically large score. -/
theorem C3_score_evaluator_witness :
    computeWinner "U1".data "U2".data (-5) (1000000000000 : Int) = some "U2".data :=
  ((C3_score_evaluator "U1".data "U2".data (-5) 1000000000000
    (by decide)).2.1).mpr (by norm_num)

/-- C4: when either raw score fails to parse as an integer, the
submission handler returns the field-level validation error and the
store — both tables — is untouched (it is never even read). -/
theorem C4_parse_failure_is_pure_field_error :
    ∀ (s : Store) (matchId rawC rawO user : List Char) (now : Nat)
      (deliverOk : Bool),
    (parsePyInt rawC = none ∨ parsePyInt rawO = none) →
    handle_score_submission s matchId rawC rawO user now deliverOk
      = (s, ScoreOut.fieldError) := by
  intro s mid rawC rawO u now dOk h
  rcases h with h | h
  · simp [handle_score_submission, h]
  · cases hc : parsePyInt rawC <;> simp [handle_score_submission, hc, h]

/-- Witness for C4 on the spec's own example `("abc", "15")`. -/
theorem C4_parse_failure_witness :
    (parsePyInt "abc".data = none ∨ parsePyInt "15".data = none) ∧
    handle_score_submission s0 mid0 "abc".data "15".data "U2".data 300 true
      = (s0, ScoreOut.fieldError) :=
  ⟨Or.inl (by decide),
   C4_parse_failure_is_pure_field_error s0 mid0 "abc".data "15".data
     "U2".data 300 true (Or.inl (by decide))⟩

/-- C5: Accept never writes to either table: on an absent id it answers
not-found and changes nothing; on a present id it leaves the store
unchanged and emits a score prompt carrying the same match id. -/
theorem C5_accept_is_read_only :
    ∀ (s : Store) (matchId : List Char),
    (get_match matchId s = none → accept_match s matchId = (s, AcceptOut.notFound)) ∧
    (∀ m : MatchRow, get_match matchId s = some m →
      accept_match s matchId
        = (s, AcceptOut.scorePrompt matchId m.challenger m.opponent)) ∧
    (accept_match s matchId).1 = s := by
  intro s mid
  refine ⟨?_, ?_, ?_⟩
  · intro h; simp [accept_match, h]
  · intro m h; simp [accept_match, h]
  · unfold accept_match
    cases hg : get_match mid s <;> simp [hg]

/-- Witness for C5 on an absent and on a present match id. -/
theorem C5_accept_witness :
    accept_match s0 "nope".data = (s0, AcceptOut.notFound) ∧
    accept_match s0 mid0 = (s0, AcceptOut.scorePrompt mid0 "U1".data "U2".data) :=
  ⟨(C5_accept_is_read_only s0 "nope".data).1 (by decide),
   (C5_accept_is_read_only s0 mid0).2.1 m0row (by decide)⟩

/-- C9: a score submission with parseable scores on an id that is
absent from the store sends only the degraded context-lost notice to
the submitter, appends no Result, and leaves both tables unchanged. -/
theorem C9_absent_match_context_lost :
    ∀ (s : Store) (matchId rawC rawO user : List Char) (now : Nat)
      (deliverOk : Bool) (cs os : Int),
    parsePyInt rawC = some cs → parsePyInt rawO = some os →
    get_match matchId s = none →
    handle_score_submission s matchId rawC rawO user now deliverOk
      = (s, ScoreOut.contextLost user) := by
  intro s mid rawC rawO u now dOk cs os hc ho hm
  simp [handle_score_submission, hc, ho, hm]

/-- Witness for C9 on a store that does not contain the id. -/
theorem C9_absent_match_witness :
    get_match "gone".data s0 = none ∧
    handle_score_submission s0 "gone".data "21".data "15".data "U1".data 300 true
      = (s0, ScoreOut.contextLost "U1".data) :=
  ⟨by decide,
   C9_absent_match_context_lost s0 "gone".data "21".data "15".data "U1".data
     300 true 21 15 (by decide) (by decide) (by decide)⟩

/-- C10: neither Decline nor SubmitScore checks that the acting user is
a participant: any user's Decline deletes the match, and any user's
parseable submission appends a Result whose submittedBy is that user. -/
theorem C10_no_participant_check :
    ∀ (s : Store) (matchId user : List Char),
    get_match matchId (decline_match s matchId user).1 = none ∧
    (∀ (rawC rawO : List Char) (now : Nat) (deliverOk : Bool) (cs os : Int)
       (m : MatchRow),
      parsePyInt rawC = some cs → parsePyInt rawO = some os →
      get_match matchId s = some m →
      (handle_score_submission s matchId rawC rawO user now deliverOk).1.results
        = s.results ++ [⟨matchId, m.challenger, m.opponent, cs, os,
            computeWinner m.challenger m.opponent cs os, m.channel, user, now⟩]) := by
  intro s mid u
  constructor
  · show get_match mid (delete_match mid s) = none
    unfold get_match delete_match
    simp [find?_filter_not]
  · intro rawC rawO now dOk cs os m hc ho hm
    cases dOk <;>
      simp [handle_score_submission, hc, ho, hm, record_result, delete_match]

/-- Witness for C10: the stranger `U9` declines and submits on a match
between `U1` and `U2`. -/
theorem C10_no_participant_check_witness :
    get_match mid0 (decline_match s0 mid0 "U9".data).1 = none ∧
    (handle_score_submission s0 mid0 "21".data "15".data "U9".data 300 true).1.results
      = s0.results ++ [⟨mid0, "U1".data, "U2".data, 21, 15,
          computeWinner "U1".data "U2".data 21 15, "CC".data, "U9".data, 300⟩] :=
  ⟨(C10_no_participant_check s0 mid0 "U9".data).1,
   (C10_no_participant_check s0 mid0 "U9".data).2 "21".data "15".data 300 true
     21 15 m0row (by decide) (by decide) (by decide)⟩

/-- C6: the resolver extracts exactly the enclosed user identifier of
the first well-formed canonical mention (with or without a display-name
suffix, which is ignored), and falls back to the loose sigil pattern
only when no canonical token exists anywhere in the text. -/
theorem C6_mention_extraction :
    (∀ pre uid nm post : List Char,
      (∀ c ∈ pre, ¬ c = '<') → uid ≠ [] → (∀ c ∈ uid, isIdChar c = true) →
      nm ≠ [] → (∀ c ∈ nm, ¬ c = '>') →
      extractOpponent (pre ++ '<' :: '@' :: (uid ++ '|' :: (nm ++ '>' :: post)))
        = some uid) ∧
    (∀ pre uid post : List Char,
      (∀ c ∈ pre, ¬ c = '<') → uid ≠ [] → (∀ c ∈ uid, isIdChar c = true) →
      extractOpponent (pre ++ '<' :: '@' :: (uid ++ '>' :: post)) = some uid) ∧
    (∀ t uid : List Char, findCanon t = some uid →
      extractOpponent t = some uid) ∧
    (∀ (pre : List Char) (u : Char) (ds post : List Char),
      findCanon (pre ++ '@' :: u :: (ds ++ post)) = none →
      (∀ c ∈ pre, ¬ c = '@') → (u = 'U' ∨ u = 'W') → ds ≠ [] →
      (∀ c ∈ ds, isIdChar c = true) →
      (post = [] ∨ ∃ c r, post = c :: r ∧ isIdChar c = false) →
      extractOpponent (pre ++ '@' :: u :: (ds ++ post)) = some (u :: ds)) := by
  refine ⟨?_, ?_, ?_, ?_⟩
  · intro pre uid nm post hpre h1 h2 h3 h4
    have hf : findCanon (pre ++ '<' :: '@' :: (uid ++ '|' :: (nm ++ '>' :: post)))
        = some uid := by
      rw [findCanon_skip pre _ hpre]
      show findCanon ('<' :: '@' :: (uid ++ '|' :: (nm ++ '>' :: post))) = some uid
      simp only [findCanon, canonAt_suffix_token uid nm post h1 h2 h3 h4]
    simp [extractOpponent, hf]
  · intro pre uid post hpre h1 h2
    have hf : findCanon (pre ++ '<' :: '@' :: (uid ++ '>' :: post)) = some uid := by
      rw [findCanon_skip pre _ hpre]
      show findCanon ('<' :: '@' :: (uid ++ '>' :: post)) = some uid
      simp only [findCanon, canonAt_plain_token uid post h1 h2]
    simp [extractOpponent, hf]
  · intro t uid h
    simp [extractOpponent, h]
  · intro pre u ds post hnone hpre hu h1 h2 h3
    have hl : findLoose (pre ++ '@' :: u :: (ds ++ post)) = some (u :: ds) := by
      rw [findLoose_skip pre _ hpre]
      show findLoose ('@' :: u :: (ds ++ post)) = some (u :: ds)
      simp only [findLoose, looseAt_token u ds post hu h1 h2 h3]
    simp [extractOpponent, hnone, hl]

/-- Witness for C6 on a canonical mention with display-name suffix. -/
theorem C6_mention_extraction_witness :
    extractOpponent ("hey ".data ++ '<' :: '@' ::
        ("U123".data ++ '|' :: ("bob".data ++ '>' :: " ok".data)))
      = some "U123".data :=
  C6_mention_extraction.1 "hey ".data "U123".data "bob".data " ok".data
    (by decide) (by decide) (by decide) (by decide) (by decide)

/-- C7: challenge text with no recognizable mention produces no match
synchronously, only a picker context carrying the channel and issuing
user; and the picker-resolution event performs exactly the synchronous
path's match-creation step (create_match with the generated id, the
issuer as challenger, the picked user as opponent, and the original
channel). -/
theorem C7_picker_fallback_and_convergence :
    (∀ (s : Store) (text user channel : List Char) (now : Nat),
      "challenge".data.isPrefixOf (pyStrip text) = true →
      extractOpponent (pyStrip text) = none →
      handle_pingpong s text user channel now
        = (s, PingOut.openPicker (channel ++ '|' :: user))) ∧
    (∀ (s : Store) (user channel opp : List Char) (now : Nat),
      (∀ c ∈ channel, ¬ c = '|') →
      handle_pick_opponent s (channel ++ '|' :: user) opp now
        = some (create_match (matchIdGen user now) user opp channel now s,
                PingOut.announce (matchIdGen user now) user opp channel)) := by
  constructor
  · intro s text u ch now hpre hext
    simp [handle_pingpong, hpre, hext]
  · intro s u ch opp now h
    simp [handle_pick_opponent, splitFirst_append ch u h]

/-- Witness for C7: an unresolvable challenge opens the picker, and the
pick event creates the match from the picker context. -/
theorem C7_picker_fallback_witness :
    handle_pingpong s0 "challenge bob".data "U1".data "C1".data 100
      = (s0, PingOut.openPicker ("C1".data ++ '|' :: "U1".data)) ∧
    handle_pick_opponent s0 ("C1".data ++ '|' :: "U1".data) "U7".data 100
      = some (create_match (matchIdGen "U1".data 100) "U1".data "U7".data
                "C1".data 100 s0,
              PingOut.announce (matchIdGen "U1".data 100) "U1".data "U7".data
                "C1".data) :=
  ⟨C7_picker_fallback_and_convergence.1 s0 "challenge bob".data "U1".data
     "C1".data 100 (by decide) (by decide),
   C7_picker_fallback_and_convergence.2 s0 "U1".data "C1".data "U7".data 100
     (by decide)⟩

/-- C8 counterexample: two distinct creation events — a synchronous
challenge by U1 against U222 in channel CA, and a picker resolution by
challenger U1 against U333 in channel CB — in the same second generate
the identical match id, refuting "ids never collide". -/
theorem C8_collision_counterexample :
    announcedId (handle_pingpong emptyStore "challenge <@U222>".data "U1".data
        "CA".data 100).2 = some "match_U1_100".data ∧
    (handle_pick_opponent emptyStore "CB|U1".data "U333".data 100).map
        (fun r => announcedId r.2) = some (some "match_U1_100".data) := by
  decide

/-- C8 (amended): the generated id `match_{challenger}_{seconds}` is
injective in the challenger/timestamp pair, so ids from two creation
events are distinct unless the events share both the challenger and
the creation second — in which case they collide (no random suffix). -/
theorem C8_id_injective : ∀ (u u' : List Char) (t t' : Nat),
    matchIdGen u t = matchIdGen u' t' → u = u' ∧ t = t' := by
  intro u u' t t' h
  unfold matchIdGen at h
  have h2 : u ++ '_' :: natDec t = u' ++ '_' :: natDec t' :=
    List.append_cancel_left h
  obtain ⟨hu, hd⟩ := sep_append_inj u (natDec t) u' (natDec t')
    (natDec_no_underscore t) (natDec_no_underscore t') h2
  exact ⟨hu, natDec_inj t t' hd⟩

/-- Witness for C8's amended theorem at concrete inputs. -/
theorem C8_id_injective_witness : "U1".data = "U1".data ∧ (100 : Nat) = 100 :=
  C8_id_injective "U1".data "U1".data 100 100 rfl

/-- C1 evaluated at the failing input: with the match present and the
result announcement failing to deliver, the code appends the Result row
(so the append does come first and is not rolled back) but never
reaches `delete_match` — the Match row survives, contradicting the
claim that the Match row still ends up deleted. -/
theorem C1_delivery_failure_keeps_match_row :
    (handle_score_submission s0 mid0 "21".data "15".data "U1".data 200 false).1
      = ⟨[(mid0, m0row)],
         [⟨mid0, "U1".data, "U2".data, 21, 15, some "U1".data, "CC".data,
           "U1".data, 200⟩]⟩ ∧
    get_match mid0
      (handle_score_submission s0 mid0 "21".data "15".data "U1".data 200 false).1
      = some m0row := by
  decide

/-- C2 evaluated at the failing input: submitting the same parseable
scores twice, the first delivery failing, appends two Results for the
same match id (a duplicate), while the second call still reports no
error — refuting "at most one Result exists afterwards". -/
theorem C2_duplicate_result_on_retry :
    ((handle_score_submission
        (handle_score_submission s0 mid0 "21".data "15".data "U1".data 200 false).1
        mid0 "21".data "15".data "U1".data 201 true).1.results.countP
      (fun r => decide (r.matchId = mid0)) = 2) ∧
    ¬ (handle_score_submission
        (handle_score_submission s0 mid0 "21".data "15".data "U1".data 200 false).1
        mid0 "21".data "15".data "U1".data 201 true).2 = ScoreOut.fieldError := by
  decide


end PingPong
